import Mathlib

/-!
# Verification of manifoldbot's bet-sizing and trading-decision code

This file gives a shallow embedding, over the rationals, of the sizing and
decision logic of the `manifoldbot` examples:

* `simple_b`, `simple_kelly`, `simple_bet` — the naive (simple) Kelly
  computation of `examples/iterative_kelly_examples.py`
  (`example_1_simple_vs_iterative_kelly`, lines 31–33).
* `bisectAux` / `kellyBisect` — the sizing bisection loop of
  `example_4_iterative_convergence` (lines 185–213).  The marginal-probability
  function of the LMSR calculator (module `manifoldbot.manifold.lmsr`, not
  under the sources we verify against) is abstracted as a parameter
  `marg : ℚ → ℚ` giving the marginal probability of a stake.
* `sizeBet` — modelled from the spec (see its doc comment).
* `calculate_bet_size` — `LLMWithBetSizing.calculate_bet_size` of
  `examples/bet_sizing_example.py` (lines 35–47).
* `parseResponse`, `decisionOf`, `analyze_market`, `analyze_market_sized` —
  the response-parsing and trading-decision logic of
  `LLMTradingBot.analyze_market` (`examples/llm_trading_bot.py`, lines 58–156)
  and `LLMWithBetSizing.analyze_market` (`examples/bet_sizing_example.py`,
  lines 49–146).  A response line of the LLM is abstracted to what the Python
  code observes of it: which header it starts with, and whether the numeric
  payload float-parses (`Option ℚ`, `none` when `float(...)` raises).
* `runAux` / `run_on_markets` — the session loop of
  `LLMTradingBot.run_on_markets` (lines 189–241); the external analysis call
  and the order-placement sink are abstracted as function parameters.

Python floats are embedded as rationals; the claims under study are about the
algebra and control flow of the code, not about floating-point rounding.
-/

/-- Decision of the trading logic.  Python uses the strings `"YES"`, `"NO"`,
`"SKIP"`. -/
inductive Decision where
  | yes
  | no
  | skip
deriving DecidableEq, Repr

/-- `simple_b = (1 / market_prob) - 1` — decimal odds implied by the quoted
probability (`iterative_kelly_examples.py`, line 31). -/
def simple_b (market_prob : ℚ) : ℚ :=
  1 / market_prob - 1

/-- `simple_kelly = (simple_b * true_prob - (1 - true_prob)) / simple_b`
(`iterative_kelly_examples.py`, line 32). -/
def simple_kelly (true_prob market_prob : ℚ) : ℚ :=
  (simple_b market_prob * true_prob - (1 - true_prob)) / simple_b market_prob

/-- `simple_bet = simple_kelly * kelly_fraction * bankroll`
(`iterative_kelly_examples.py`, line 33). -/
def simple_bet (true_prob market_prob kelly_fraction bankroll : ℚ) : ℚ :=
  simple_kelly true_prob market_prob * kelly_fraction * bankroll

/-- One run of the bisection loop of `example_4_iterative_convergence`
(`iterative_kelly_examples.py`, lines 185–213), with `fuel` iterations
remaining.  `marg` abstracts `calculator.calculate_marginal_probability
(mid, market_prob, outcome)`; `prev` carries the midpoint computed by the
last executed iteration, which Python's `mid` variable still holds when the
`for` loop exhausts its range.  The second component of the result counts the
iterations actually executed. -/
def bisectAux (marg : ℚ → ℚ) (true_prob kelly_fraction bankroll : ℚ) :
    ℕ → ℚ → ℚ → ℚ → ℚ × ℕ
  | 0, _, _, prev => (prev, 0)
  | fuel + 1, low, high, _ =>
    let mid := (low + high) / 2
    let marginal_prob := marg mid
    let b := 1 / marginal_prob - 1
    let kelly_calc := (b * true_prob - (1 - true_prob)) / b
    let desired := kelly_calc * kelly_fraction * bankroll
    if kelly_calc ≤ 0 then
      let r := bisectAux marg true_prob kelly_fraction bankroll fuel low mid mid
      (r.1, r.2 + 1)
    else if |mid - desired| < 1 / 100 then
      (mid, 1)
    else if mid < desired then
      let r := bisectAux marg true_prob kelly_fraction bankroll fuel mid high mid
      (r.1, r.2 + 1)
    else
      let r := bisectAux marg true_prob kelly_fraction bankroll fuel low mid mid
      (r.1, r.2 + 1)

/-- The bisection of `example_4_iterative_convergence`: bracket starts at
`[0, bankroll]` (`low, high = 0.0, bankroll`, line 185) and the loop is
`for iteration in range(10)` (line 186). -/
def kellyBisect (marg : ℚ → ℚ) (true_prob kelly_fraction bankroll : ℚ) : ℚ × ℕ :=
  bisectAux marg true_prob kelly_fraction bankroll 10 0 bankroll 0

/-- Outcome of one step of the sizing search as the spec describes it:
either the search stops with a result, or it continues on a new bracket. -/
inductive SpecStep where
  | stop : ℚ → SpecStep
  | cont : ℚ → ℚ → SpecStep
deriving DecidableEq, Repr

/-- One iteration of the sizing bisection, transcribed from the spec's §4.2
step description: with midpoint `mid`, marginal probability `m`, Kelly
fraction `κ = (b·q − (1−q))/b` where `b = (1/m) − 1`, and
`desired = κ·kellyFraction·bankroll` — if `κ ≤ 0` the upper bound shrinks to
`mid`; else if `|mid − desired| < 0.01` the search stops with `mid`; else if
`mid < desired` the lower bound rises to `mid`, otherwise the upper bound
shrinks to `mid`. -/
def specSizingStep (marg : ℚ → ℚ) (q kellyFraction bankroll low high : ℚ) : SpecStep :=
  let mid := (low + high) / 2
  let m := marg mid
  let b := 1 / m - 1
  let kelly := (b * q - (1 - q)) / b
  let desired := kelly * kellyFraction * bankroll
  if kelly ≤ 0 then SpecStep.cont low mid
  else if |mid - desired| < 1 / 100 then SpecStep.stop mid
  else if mid < desired then SpecStep.cont mid high
  else SpecStep.cont low mid

/-- Driver for `specSizingStep`: runs at most `fuel` steps, returning the
result at a stop, or the midpoint of the last executed step when the fuel is
exhausted, together with the number of steps executed. -/
def specSizingLoop (marg : ℚ → ℚ) (q kellyFraction bankroll : ℚ) :
    ℕ → ℚ → ℚ → ℚ → ℚ × ℕ
  | 0, _, _, prev => (prev, 0)
  | fuel + 1, low, high, _ =>
    match specSizingStep marg q kellyFraction bankroll low high with
    | SpecStep.stop r => (r, 1)
    | SpecStep.cont lo hi =>
      let r := specSizingLoop marg q kellyFraction bankroll fuel lo hi ((low + high) / 2)
      (r.1, r.2 + 1)

/-- The spec's §4.2 sizing search: bisection on the stake over the bracket
`[0, bankroll]`. -/
def specSizing (marg : ℚ → ℚ) (q kellyFraction bankroll : ℚ) : ℚ × ℕ :=
  specSizingLoop marg q kellyFraction bankroll 10 0 bankroll 0

/-- Modelled from the spec: `KellyCriterionDecisionMaker.calculate_kelly_bet`
lives in the module `manifoldbot.manifold.bot`, which is not among the source
files; §4.2 gives its final sizing: the naive Kelly fraction at the
undisturbed quote is `κ(p) = (q−p)/(p·(1−p))`; the result is `0` whenever
`κ(p) ≤ 0` (no edge) and otherwise `clamp(min(M_kelly, M_capped), minBet,
maxBet)` with `0` when the value falls below `minBet`.  `M_kelly` is the
bisection result; the impact-cap bound `M_capped` is abstracted as a
parameter, since the impact bisection lives in the missing
`manifoldbot.manifold.lmsr`. -/
def sizeBet (marg : ℚ → ℚ) (mcapped true_prob market_prob kelly_fraction
    bankroll minBet maxBet : ℚ) : ℚ :=
  let kp := (true_prob - market_prob) / (market_prob * (1 - market_prob))
  if kp ≤ 0 then 0
  else
    let mkelly := (kellyBisect marg true_prob kelly_fraction bankroll).1
    let m1 := min mkelly mcapped
    if m1 < minBet then 0 else min m1 maxBet

/-- `LLMWithBetSizing.calculate_bet_size` (`bet_sizing_example.py`, lines
35–47): `confidence_multiplier = 1 + (confidence - 0.5) * 4`,
`diff_multiplier = 1 + min(probability_diff * 5, 2.0)`,
`bet_amount = base_bet * confidence_multiplier * diff_multiplier`,
returned as `min(bet_amount, 50.0)`. -/
def calculate_bet_size (base_bet confidence probability_diff : ℚ) : ℚ :=
  let confidence_multiplier := 1 + (confidence - 1 / 2) * 4
  let diff_multiplier := 1 + min (probability_diff * 5) 2
  let bet_amount := base_bet * confidence_multiplier * diff_multiplier
  min bet_amount 50

/-- One line of the LLM response, abstracted to what the Python parsing loop
(`llm_trading_bot.py`, lines 107–124) observes: which header the line starts
with, and — for the numeric lines — the result of
`float(line.split(":")[1].strip().replace("%", "")) / 100`, already scaled,
with `none` when the `float` conversion raises. -/
inductive ResponseLine where
  | probLine : Option ℚ → ResponseLine
  | confLine : Option ℚ → ResponseLine
  | reasonLine : String → ResponseLine
  | otherLine : ResponseLine
deriving DecidableEq

/-- Parsed response: `llm_prob`, `confidence`, `reasoning`, all initialised
to the defaults `0.5`, `0.5`, `"No reasoning provided"` before the parsing
loop (`llm_trading_bot.py`, lines 108–110). -/
structure ParsedResponse where
  llm_prob : ℚ
  confidence : ℚ
  reasoning : String
deriving DecidableEq

/-- The body of the parsing loop: a `PROBABILITY:` line overwrites
`llm_prob` with its parsed value, or with the default `0.5` when the `float`
conversion raises (lines 113–117); likewise for `CONFIDENCE:`; a
`REASONING:` line overwrites `reasoning`; other lines are ignored. -/
def parseStep (acc : ParsedResponse) (l : ResponseLine) : ParsedResponse :=
  match l with
  | ResponseLine.probLine (some v) => { acc with llm_prob := v }
  | ResponseLine.probLine none => { acc with llm_prob := 1 / 2 }
  | ResponseLine.confLine (some v) => { acc with confidence := v }
  | ResponseLine.confLine none => { acc with confidence := 1 / 2 }
  | ResponseLine.reasonLine s => { acc with reasoning := s }
  | ResponseLine.otherLine => acc

/-- The default-initialised reasoning string (`llm_trading_bot.py`, line 110). -/
def defaultReasoning : String :=
  "No reasoning provided"

/-- The parsing loop over the lines of the LLM response
(`llm_trading_bot.py`, lines 107–124). -/
def parseResponse (lines : List ResponseLine) : ParsedResponse :=
  lines.foldl parseStep ⟨1 / 2, 1 / 2, defaultReasoning⟩

/-- The trading-decision kernel (`llm_trading_bot.py`, lines 127–134 and
identically `bet_sizing_example.py`, lines 110–118): starting from `SKIP`,
if `prob_diff >= 0.05 and confidence >= self.min_confidence` then `YES` when
`llm_prob > current_prob`, else `NO`. -/
def decisionOf (llm_prob current_prob confidence min_confidence : ℚ) : Decision :=
  if 1 / 20 ≤ |llm_prob - current_prob| ∧ min_confidence ≤ confidence then
    if current_prob < llm_prob then Decision.yes else Decision.no
  else Decision.skip

/-- A market record as `analyze_market` reads it: every key is read with
`market.get(key, default)`, so every field may be absent. -/
structure Market where
  question : Option String
  description : Option String
  probability : Option ℚ
  id : Option String

/-- `market.get("probability", 0.5)`. -/
def getProb (m : Market) : ℚ :=
  match m.probability with
  | some q => q
  | none => 1 / 2

/-- `market.get(key, "")` for the string-valued keys. -/
def getStr (o : Option String) : String :=
  match o with
  | some s => s
  | none => ""

/-- `TradingDecision` of `llm_trading_bot.py` (lines 18–27). -/
structure TradingDecision where
  market_id : String
  question : String
  current_probability : ℚ
  llm_probability : ℚ
  decision : Decision
  confidence : ℚ
  reasoning : String

/-- `LLMTradingBot.analyze_market` (`llm_trading_bot.py`, lines 58–156).
The external LLM call is abstracted as `resp : Except String (List
ResponseLine)`: `Except.error e` models the call (or anything else inside the
`try` block) raising an exception with message `e`, in which case the code
returns a `SKIP` decision with confidence `0.0` and `llm_probability = 0.5`
(lines 146–156); `Except.ok lines` models a successful call whose response
splits into `lines`. -/
def analyze_market (min_confidence : ℚ) (market : Market)
    (resp : Except String (List ResponseLine)) : TradingDecision :=
  let question := getStr market.question
  let current_prob := getProb market
  let market_id := getStr market.id
  match resp with
  | Except.error e =>
    { market_id := market_id
      question := question
      current_probability := current_prob
      llm_probability := 1 / 2
      decision := Decision.skip
      confidence := 0
      reasoning := "Error: " ++ e }
  | Except.ok lines =>
    let parsed := parseResponse lines
    { market_id := market_id
      question := question
      current_probability := current_prob
      llm_probability := parsed.llm_prob
      decision := decisionOf parsed.llm_prob current_prob parsed.confidence min_confidence
      confidence := parsed.confidence
      reasoning := parsed.reasoning }

/-- `MarketDecision` as `LLMWithBetSizing.analyze_market` builds it
(`bet_sizing_example.py`, lines 123–146); the metadata dictionary is elided,
except that its `llm_probability` entry is kept as a field. -/
structure MarketDecision where
  market_id : String
  question : String
  current_probability : ℚ
  decision : Decision
  confidence : ℚ
  reasoning : String
  bet_amount : Option ℚ
  llm_probability : ℚ

/-- `LLMWithBetSizing.analyze_market` (`bet_sizing_example.py`, lines
49–146): same parsing and thresholds as `LLMTradingBot.analyze_market`, but
a non-`SKIP` decision also computes `bet_amount =
self.calculate_bet_size(confidence, prob_diff)` (lines 114–121); `bet_amount`
stays `None` otherwise, and on an exception the decision is `SKIP` with
confidence `0.0` (lines 138–146). -/
def analyze_market_sized (min_confidence base_bet : ℚ) (market : Market)
    (resp : Except String (List ResponseLine)) : MarketDecision :=
  let question := getStr market.question
  let current_prob := getProb market
  let market_id := getStr market.id
  match resp with
  | Except.error e =>
    { market_id := market_id
      question := question
      current_probability := current_prob
      decision := Decision.skip
      confidence := 0
      reasoning := "Error: " ++ e
      bet_amount := none
      llm_probability := 1 / 2 }
  | Except.ok lines =>
    let parsed := parseResponse lines
    let prob_diff := |parsed.llm_prob - current_prob|
    let amt :=
      if 1 / 20 ≤ prob_diff ∧ min_confidence ≤ parsed.confidence then
        some (calculate_bet_size base_bet parsed.confidence prob_diff)
      else none
    { market_id := market_id
      question := question
      current_probability := current_prob
      decision := decisionOf parsed.llm_prob current_prob parsed.confidence min_confidence
      confidence := parsed.confidence
      reasoning := parsed.reasoning
      bet_amount := amt
      llm_probability := parsed.llm_prob }

/-- `LLMTradingBot.place_bet_if_decision` (`llm_trading_bot.py`, lines
158–187): returns `False` for a `SKIP` decision, otherwise the success of the
external order placement, abstracted as `place`. -/
def place_bet_if_decision (place : TradingDecision → Bool) (d : TradingDecision) : Bool :=
  if d.decision = Decision.skip then false else place d

/-- The loop of `LLMTradingBot.run_on_markets` (`llm_trading_bot.py`, lines
207–231): for each market, first `break` when `bets_placed >= max_bets`; else
analyze the market, append the decision, and — when the decision is not
`SKIP` and `place_bet_if_decision` succeeds — increment `bets_placed`.
`analyze` abstracts `self.analyze_market` (whose outcome depends on the
external LLM call). -/
def runAux (analyze : Market → TradingDecision) (place : TradingDecision → Bool)
    (max_bets : ℕ) : List Market → List TradingDecision → ℕ → List TradingDecision × ℕ
  | [], decisions, bets_placed => (decisions, bets_placed)
  | m :: ms, decisions, bets_placed =>
    if max_bets ≤ bets_placed then (decisions, bets_placed)
    else
      let d := analyze m
      if d.decision ≠ Decision.skip ∧ place_bet_if_decision place d = true then
        runAux analyze place max_bets ms (decisions ++ [d]) (bets_placed + 1)
      else
        runAux analyze place max_bets ms (decisions ++ [d]) bets_placed

/-- Summary of a trading session (`llm_trading_bot.py`, lines 235–241); the
balance fields, read from the external writer, are elided. -/
structure SessionSummary where
  markets_analyzed : ℕ
  bets_placed : ℕ
  decisions : List TradingDecision

/-- `LLMTradingBot.run_on_markets` (lines 189–241): starts with no decision
and `bets_placed = 0`. -/
def run_on_markets (analyze : Market → TradingDecision)
    (place : TradingDecision → Bool) (markets : List Market) (max_bets : ℕ) :
    SessionSummary :=
  let r := runAux analyze place max_bets markets [] 0
  { markets_analyzed := r.1.length
    bets_placed := r.2
    decisions := r.1 }

/-! ## Theorems -/

/-- C1 counterexample: at `p = 1/2`, `q = 7/10` the program's simple Kelly
fraction is `2/5`, while the spec's formula `(q−p)/(p·(1−p))` gives `4/5`;
the two disagree. -/
theorem simple_kelly_ne_spec_formula :
    simple_kelly (7 / 10) (1 / 2) = 2 / 5 ∧
    ((7 : ℚ) / 10 - 1 / 2) / ((1 / 2) * (1 - 1 / 2)) = 4 / 5 ∧
    simple_kelly (7 / 10) (1 / 2) ≠ ((7 : ℚ) / 10 - 1 / 2) / ((1 / 2) * (1 - 1 / 2)) := by
  refine ⟨?_, by norm_num, ?_⟩ <;> norm_num [simple_kelly, simple_b]

/-- C1 (amended): for every quoted probability `p ∈ (0,1)` and belief `q`,
the simple Kelly fraction computed via decimal odds `b = (1/p) − 1` and
`kelly = (b·q − (1−q))/b` equals `(q−p)/(1−p)` (not `(q−p)/(p·(1−p))`), and
the desired stake is that fraction times `kelly_fraction` times `bankroll`. -/
theorem simple_kelly_closed_form (p q kelly_fraction bankroll : ℚ)
    (hp : 0 < p) (hp1 : p < 1) :
    simple_kelly q p = (q - p) / (1 - p) ∧
    simple_bet q p kelly_fraction bankroll = (q - p) / (1 - p) * kelly_fraction * bankroll := by
  have hp0 : p ≠ 0 := ne_of_gt hp
  have h1 : (0 : ℚ) < 1 - p := by linarith
  have h10 : (1 : ℚ) - p ≠ 0 := ne_of_gt h1
  have hb : simple_b p = (1 - p) / p := by
    rw [simple_b]; field_simp
  have hb0 : simple_b p ≠ 0 := by
    rw [hb]; exact div_ne_zero h10 hp0
  have hk : simple_kelly q p = (q - p) / (1 - p) := by
    rw [simple_kelly, div_eq_div_iff hb0 h10, hb]
    field_simp
    left
    ring
  exact ⟨hk, by rw [simple_bet, hk]⟩

/-- C1 witness: the amended closed form at `p = 1/2`, `q = 7/10`,
`kelly_fraction = 1/4`, `bankroll = 1000`. -/
theorem simple_kelly_closed_form_witness :
    (0 : ℚ) < 1 / 2 ∧ (1 : ℚ) / 2 < 1 ∧
    (simple_kelly (7 / 10) (1 / 2) = ((7 : ℚ) / 10 - 1 / 2) / (1 - 1 / 2) ∧
      simple_bet (7 / 10) (1 / 2) (1 / 4) 1000
        = ((7 : ℚ) / 10 - 1 / 2) / (1 - 1 / 2) * (1 / 4) * 1000) :=
  ⟨by norm_num, by norm_num,
    simple_kelly_closed_form (1 / 2) (7 / 10) (1 / 4) 1000 (by norm_num) (by norm_num)⟩

/-- C5 counterexample: at `base_bet = 10`, `confidence = 0`,
`probability_diff = 0` the returned stake is `−10`, which is negative — the
result is not clamped to `[0, maxBet]`. -/
theorem calculate_bet_size_negative :
    calculate_bet_size 10 0 0 = -10 ∧ calculate_bet_size 10 0 0 < 0 := by
  constructor <;> · simp [calculate_bet_size, min_def]; norm_num

/-- C5 (amended): the stake equals
`base_bet · (1 + 4·(confidence − 1/2)) · (1 + 5·min(probability_diff, 2/5))`
clamped above at `maxBet = 50` only; there is no lower clamp at `0`, so the
result can be negative (for confidence below `1/4`). -/
theorem calculate_bet_size_formula (base_bet confidence probability_diff : ℚ) :
    calculate_bet_size base_bet confidence probability_diff
      = min (base_bet * (1 + 4 * (confidence - 1 / 2))
          * (1 + 5 * min probability_diff (2 / 5))) 50 := by
  have hm : min (probability_diff * 5) 2 = 5 * min probability_diff (2 / 5) := by
    rcases le_total probability_diff (2 / 5) with h | h
    · rw [min_eq_left (by linarith), min_eq_left h]; ring
    · rw [min_eq_right (by linarith), min_eq_right h]; norm_num
  simp only [calculate_bet_size]
  rw [hm]
  congr 1
  ring

/-- C6 counterexample: at `base_bet = 10`, `confidence = 1/10` the stake at
edge `0` is `−6` and at edge `2/5` it is `−18`: the stake is not monotone
non-decreasing in the probability difference for every confidence. -/
theorem calculate_bet_size_not_monotone :
    (0 : ℚ) ≤ 2 / 5 ∧
    ¬ calculate_bet_size 10 (1 / 10) 0 ≤ calculate_bet_size 10 (1 / 10) (2 / 5) := by
  constructor
  · norm_num
  · simp [calculate_bet_size, min_def]; norm_num

/-- C6 (amended): for every non-negative `base_bet` and every confidence
`c ≥ 1/4` (where the confidence multiplier is non-negative), the stake is
monotone non-decreasing in the probability difference; for `c < 1/4` the
counterexample shows it can decrease. -/
theorem calculate_bet_size_monotone (base_bet c d1 d2 : ℚ)
    (hbase : 0 ≤ base_bet) (hc : 1 / 4 ≤ c) (hd : d1 ≤ d2) :
    calculate_bet_size base_bet c d1 ≤ calculate_bet_size base_bet c d2 := by
  simp only [calculate_bet_size]
  refine min_le_min ?_ le_rfl
  have h1 : (0 : ℚ) ≤ base_bet * (1 + (c - 1 / 2) * 4) :=
    mul_nonneg hbase (by linarith)
  have h2 : 1 + min (d1 * 5) 2 ≤ 1 + min (d2 * 5) 2 := by
    have := min_le_min (mul_le_mul_of_nonneg_right hd (by norm_num : (0:ℚ) ≤ 5))
      (le_refl (2 : ℚ))
    linarith
  exact mul_le_mul_of_nonneg_left h2 h1

/-- C6 witness: monotonicity at `base_bet = 10`, `c = 6/10`, `d1 = 1/10`,
`d2 = 2/10`. -/
theorem calculate_bet_size_monotone_witness :
    (0 : ℚ) ≤ 10 ∧ (1 : ℚ) / 4 ≤ 6 / 10 ∧ (1 : ℚ) / 10 ≤ 2 / 10 ∧
    calculate_bet_size 10 (6 / 10) (1 / 10) ≤ calculate_bet_size 10 (6 / 10) (2 / 10) :=
  ⟨by norm_num, by norm_num, by norm_num,
    calculate_bet_size_monotone 10 (6 / 10) (1 / 10) (2 / 10)
      (by norm_num) (by norm_num) (by norm_num)⟩

/-- C4: the decision is `SKIP` whenever `|q−p| < 0.05` or the confidence is
below the configured minimum; otherwise it is `YES` if `q > p` and `NO` if
`q < p` — and both `analyze_market` variants compute their decision through
this kernel on the parsed values. -/
theorem decision_rule (q p c mc : ℚ) :
    ((|q - p| < 1 / 20 ∨ c < mc) → decisionOf q p c mc = Decision.skip) ∧
    (1 / 20 ≤ |q - p| → mc ≤ c →
      ((p < q → decisionOf q p c mc = Decision.yes) ∧
       (q < p → decisionOf q p c mc = Decision.no))) ∧
    (∀ (m : Market) (lines : List ResponseLine),
      (analyze_market mc m (Except.ok lines)).decision
        = decisionOf (parseResponse lines).llm_prob (getProb m)
            (parseResponse lines).confidence mc) ∧
    (∀ (m : Market) (lines : List ResponseLine) (base_bet : ℚ),
      (analyze_market_sized mc base_bet m (Except.ok lines)).decision
        = decisionOf (parseResponse lines).llm_prob (getProb m)
            (parseResponse lines).confidence mc) := by
  refine ⟨?_, ?_, fun m lines => rfl, fun m lines base_bet => rfl⟩
  · intro h
    rw [decisionOf, if_neg]
    rintro ⟨h1, h2⟩
    rcases h with h | h
    · exact absurd h1 (not_le.mpr h)
    · exact absurd h2 (not_le.mpr h)
  · intro h1 h2
    constructor
    · intro hlt
      rw [decisionOf, if_pos ⟨h1, h2⟩, if_pos hlt]
    · intro hlt
      rw [decisionOf, if_pos ⟨h1, h2⟩, if_neg (not_lt.mpr (le_of_lt hlt))]

/-- C4 witness: at `q = 7/10`, `p = 1/2`, `c = 9/10`, `mc = 6/10` the
difference and confidence thresholds hold and the decision is `YES`. -/
theorem decision_rule_witness :
    (1 : ℚ) / 20 ≤ |(7 : ℚ) / 10 - 1 / 2| ∧ (6 : ℚ) / 10 ≤ 9 / 10 ∧
    (1 : ℚ) / 2 < 7 / 10 ∧
    decisionOf (7 / 10) (1 / 2) (9 / 10) (6 / 10) = Decision.yes := by
  have h1 : (1 : ℚ) / 20 ≤ |(7 : ℚ) / 10 - 1 / 2| := by
    rw [abs_of_nonneg] <;> norm_num
  have h2 : (6 : ℚ) / 10 ≤ 9 / 10 := by norm_num
  have h3 : (1 : ℚ) / 2 < 7 / 10 := by norm_num
  exact ⟨h1, h2, h3,
    ((decision_rule (7 / 10) (1 / 2) (9 / 10) (6 / 10)).2.1 h1 h2).1 h3⟩

/-- C7 counterexample: a response whose `PROBABILITY:` line fails to parse
(payload `none`) but whose `CONFIDENCE:` line parses to `9/10`, on a market
quoted at `3/10` with minimum confidence `6/10`: `analyze_market` continues
with the fabricated probability `0.5` and returns decision `YES`, not a
propagated failure or a skip. -/
theorem analyze_market_uses_default_probability :
    (analyze_market (6 / 10)
        ⟨none, none, some (3 / 10), none⟩
        (Except.ok [ResponseLine.probLine none,
          ResponseLine.confLine (some (9 / 10))])).llm_probability = 1 / 2 ∧
    (analyze_market (6 / 10)
        ⟨none, none, some (3 / 10), none⟩
        (Except.ok [ResponseLine.probLine none,
          ResponseLine.confLine (some (9 / 10))])).decision = Decision.yes := by
  constructor
  · rfl
  · have habs : |(1 : ℚ) / 2 - 3 / 10| = 1 / 5 := by
      rw [abs_of_nonneg] <;> norm_num
    simp only [analyze_market, parseResponse, List.foldl, parseStep, getProb,
      decisionOf, habs]
    norm_num

/-- C7 (amended): on a belief-elicitation response whose `PROBABILITY:`
(resp. `CONFIDENCE:`) line cannot be parsed, the analysis substitutes the
default `0.5` for that quantity and proceeds to compute a decision from it,
rather than propagating the failure or forcing a skip. -/
theorem parse_failure_substitutes_default (ls : List ResponseLine) (mc : ℚ)
    (m : Market) :
    (parseResponse (ls ++ [ResponseLine.probLine none])).llm_prob = 1 / 2 ∧
    (parseResponse (ls ++ [ResponseLine.confLine none])).confidence = 1 / 2 ∧
    (analyze_market mc m
        (Except.ok (ls ++ [ResponseLine.probLine none]))).llm_probability = 1 / 2 ∧
    (analyze_market mc m
        (Except.ok (ls ++ [ResponseLine.probLine none]))).decision
      = decisionOf (1 / 2) (getProb m)
          (parseResponse (ls ++ [ResponseLine.probLine none])).confidence mc := by
  have hp : (parseResponse (ls ++ [ResponseLine.probLine none])).llm_prob = 1 / 2 := by
    rw [parseResponse, List.foldl_append]
    rfl
  have hc : (parseResponse (ls ++ [ResponseLine.confLine none])).confidence = 1 / 2 := by
    rw [parseResponse, List.foldl_append]
    rfl
  refine ⟨hp, hc, hp, ?_⟩
  show decisionOf (parseResponse (ls ++ [ResponseLine.probLine none])).llm_prob _ _ _ = _
  rw [hp]

/-- C10: `analyze_market` (both variants) is total over markets with any of
the `question`, `description`, `probability`, `id` keys absent, and fails
closed: when the external analysis call raises, the returned decision is
`SKIP` with confidence exactly `0`, with `bet_amount` left unset in the
sizing variant, and the current probability defaulting per `market.get`. -/
theorem analyze_market_fails_closed (mc base_bet : ℚ) (m : Market) (e : String) :
    (analyze_market mc m (Except.error e)).decision = Decision.skip ∧
    (analyze_market mc m (Except.error e)).confidence = 0 ∧
    (analyze_market_sized mc base_bet m (Except.error e)).decision = Decision.skip ∧
    (analyze_market_sized mc base_bet m (Except.error e)).confidence = 0 ∧
    (analyze_market_sized mc base_bet m (Except.error e)).bet_amount = none ∧
    (analyze_market mc m (Except.error e)).current_probability = getProb m :=
  ⟨rfl, rfl, rfl, rfl, rfl, rfl⟩

/-- `bisectAux` at exhausted fuel returns the carried last midpoint. -/
lemma bisectAux_zero (marg : ℚ → ℚ) (q kf B : ℚ) (low high prev : ℚ) :
    bisectAux marg q kf B 0 low high prev = (prev, 0) := rfl

/-- One-step unfolding of `bisectAux`. -/
lemma bisectAux_succ_eq (marg : ℚ → ℚ) (q kf B : ℚ) (n : ℕ) (low high prev : ℚ) :
    bisectAux marg q kf B (n + 1) low high prev
      = (if ((1 / marg ((low + high) / 2) - 1) * q - (1 - q))
              / (1 / marg ((low + high) / 2) - 1) ≤ 0 then
           ((bisectAux marg q kf B n low ((low + high) / 2) ((low + high) / 2)).1,
            (bisectAux marg q kf B n low ((low + high) / 2) ((low + high) / 2)).2 + 1)
         else if |(low + high) / 2
             - ((1 / marg ((low + high) / 2) - 1) * q - (1 - q))
                 / (1 / marg ((low + high) / 2) - 1) * kf * B| < 1 / 100 then
           ((low + high) / 2, 1)
         else if (low + high) / 2
             < ((1 / marg ((low + high) / 2) - 1) * q - (1 - q))
                 / (1 / marg ((low + high) / 2) - 1) * kf * B then
           ((bisectAux marg q kf B n ((low + high) / 2) high ((low + high) / 2)).1,
            (bisectAux marg q kf B n ((low + high) / 2) high ((low + high) / 2)).2 + 1)
         else
           ((bisectAux marg q kf B n low ((low + high) / 2) ((low + high) / 2)).1,
            (bisectAux marg q kf B n low ((low + high) / 2) ((low + high) / 2)).2 + 1)) := rfl

/-- The code's bisection loop agrees, at every fuel and bracket, with the
loop driven by the spec-phrased step `specSizingStep`. -/
lemma bisectAux_eq_specSizingLoop (marg : ℚ → ℚ) (q kf B : ℚ) :
    ∀ (fuel : ℕ) (low high prev : ℚ),
      bisectAux marg q kf B fuel low high prev
        = specSizingLoop marg q kf B fuel low high prev := by
  intro fuel
  induction fuel with
  | zero => intro low high prev; rfl
  | succ n ih =>
    intro low high prev
    simp only [bisectAux, specSizingLoop, specSizingStep]
    split
    · simp [ih]
    · split
      · rfl
      · split
        · simp [ih]
        · simp [ih]

/-- The number of executed bisection iterations never exceeds the fuel. -/
lemma bisectAux_count_le (marg : ℚ → ℚ) (q kf B : ℚ) :
    ∀ (fuel : ℕ) (low high prev : ℚ),
      (bisectAux marg q kf B fuel low high prev).2 ≤ fuel := by
  intro fuel
  induction fuel with
  | zero => intro low high prev; exact le_refl 0
  | succ n ih =>
    intro low high prev
    simp only [bisectAux]
    split
    · exact Nat.succ_le_succ (ih low _ _)
    · split
      · exact Nat.succ_le_succ (Nat.zero_le n)
      · split
        · exact Nat.succ_le_succ (ih _ high _)
        · exact Nat.succ_le_succ (ih low _ _)

/-- With a bracket `0 ≤ low < high` and a positive carried midpoint, the
bisection result is positive: every value it can return is a strict interior
midpoint of some bracket. -/
lemma bisectAux_pos (marg : ℚ → ℚ) (q kf B : ℚ) :
    ∀ (fuel : ℕ) (low high prev : ℚ), 0 ≤ low → low < high → 0 < prev →
      0 < (bisectAux marg q kf B fuel low high prev).1 := by
  intro fuel
  induction fuel with
  | zero => intro low high prev _ _ hp; exact hp
  | succ n ih =>
    intro low high prev hl hlh _
    have hmid1 : low < (low + high) / 2 := by linarith
    have hmid2 : (low + high) / 2 < high := by linarith
    have hmidpos : 0 < (low + high) / 2 := lt_of_le_of_lt hl hmid1
    simp only [bisectAux]
    split
    · exact ih low _ _ hl hmid1 hmidpos
    · split
      · exact hmidpos
      · split
        · exact ih _ high _ (le_of_lt hmidpos) hmid2 hmidpos
        · exact ih low _ _ hl hmid1 hmidpos

/-- With at least one iteration of fuel and a bracket `0 ≤ low < high`, the
bisection result is positive whatever the carried midpoint. -/
lemma bisectAux_succ_pos (marg : ℚ → ℚ) (q kf B : ℚ) (n : ℕ) (low high prev : ℚ)
    (hl : 0 ≤ low) (hlh : low < high) :
    0 < (bisectAux marg q kf B (n + 1) low high prev).1 := by
  have hmid1 : low < (low + high) / 2 := by linarith
  have hmid2 : (low + high) / 2 < high := by linarith
  have hmidpos : 0 < (low + high) / 2 := lt_of_le_of_lt hl hmid1
  simp only [bisectAux]
  split
  · exact bisectAux_pos marg q kf B n low _ _ hl hmid1 hmidpos
  · split
    · exact hmidpos
    · split
      · exact bisectAux_pos marg q kf B n _ high _ (le_of_lt hmidpos) hmid2 hmidpos
      · exact bisectAux_pos marg q kf B n low _ _ hl hmid1 hmidpos

/-- With the infinitely-liquid marginal function (constantly `1/2`) and
belief `1/2`, every iteration takes the `kelly_calc ≤ 0` branch, so `n + 1`
iterations halve the bracket toward `low` and return the final midpoint. -/
lemma bisectAux_const_half (kf B : ℚ) :
    ∀ (n : ℕ) (low high prev : ℚ),
      bisectAux (fun _ => 1 / 2) (1 / 2) kf B (n + 1) low high prev
        = (low + (high - low) / 2 ^ (n + 1), n + 1) := by
  intro n
  induction n with
  | zero =>
    intro low high prev
    rw [bisectAux_succ_eq, if_pos (by norm_num), bisectAux_zero, Prod.ext_iff]
    constructor
    · show (low + high) / 2 = low + (high - low) / 2 ^ (0 + 1)
      rw [pow_one]
      ring
    · rfl
  | succ n ih =>
    intro low high prev
    rw [bisectAux_succ_eq, if_pos (by norm_num),
      ih low ((low + high) / 2) ((low + high) / 2), Prod.ext_iff]
    constructor
    · show low + ((low + high) / 2 - low) / 2 ^ (n + 1)
        = low + (high - low) / 2 ^ (n + 1 + 1)
      have h2 : (2 : ℚ) ^ (n + 1) ≠ 0 := by positivity
      field_simp
      ring
    · rfl

/-- C2: the sizing bisection starts from the bracket `[0, bankroll]` and its
loop coincides, at every fuel and bracket, with the loop driven by the
spec-phrased step (κ ≤ 0 shrinks the upper bound to `mid`; else
`|mid − desired| < 0.01` stops with `mid`; else `mid < desired` raises the
lower bound to `mid`, otherwise the upper bound shrinks to `mid`). -/
theorem sizing_bisection_refines_spec (marg : ℚ → ℚ) (q kf B : ℚ) :
    kellyBisect marg q kf B = specSizing marg q kf B ∧
    ∀ (fuel : ℕ) (low high prev : ℚ),
      bisectAux marg q kf B fuel low high prev
        = specSizingLoop marg q kf B fuel low high prev :=
  ⟨bisectAux_eq_specSizingLoop marg q kf B 10 0 B 0,
    bisectAux_eq_specSizingLoop marg q kf B⟩

/-- C8: for every marginal-probability function, belief, Kelly fraction and
bankroll, the sizing bisection executes at most its fixed iteration cap
(10 in the code, within the spec's "approximately 40" bound), and when the
cap exhausts without convergence it returns the carried last midpoint. -/
theorem sizing_bisection_iteration_cap (marg : ℚ → ℚ) (q kf B : ℚ) :
    (kellyBisect marg q kf B).2 ≤ 10 ∧
    ∀ (low high prev : ℚ), bisectAux marg q kf B 0 low high prev = (prev, 0) :=
  ⟨bisectAux_count_le marg q kf B 10 0 B 0, fun _ _ _ => rfl⟩

/-- C3 counterexample: the bisection run at `true_prob = market_prob = 1/2`
with the infinitely-liquid marginal function, `kelly_fraction = 1/4` and
`bankroll = 1000` returns `125/128` — the final midpoint — and not `0`. -/
theorem no_edge_bisection_returns_positive_midpoint :
    (kellyBisect (fun _ => 1 / 2) (1 / 2) (1 / 4) 1000).1 = 125 / 128 ∧
    (kellyBisect (fun _ => 1 / 2) (1 / 2) (1 / 4) 1000).1 ≠ 0 := by
  have h := bisectAux_const_half (1 / 4) 1000 9 0 1000 0
  norm_num at h
  rw [kellyBisect, h]
  norm_num

/-- C3 (amended): when the belief equals the quoted probability the sizing
computation `sizeBet` returns exactly `0` (through its `κ(p) ≤ 0` no-edge
gate, independently of confidence and of all other parameters), while the
raw §4.2 bisection never returns `0` for a positive bankroll — it always
returns a strictly positive midpoint. -/
theorem sizeBet_zero_at_no_edge (marg : ℚ → ℚ)
    (mcapped p q kf B minB maxB : ℚ) (hB : 0 < B) :
    sizeBet marg mcapped p p kf B minB maxB = 0 ∧
    0 < (kellyBisect marg q kf B).1 := by
  constructor
  · simp [sizeBet]
  · show 0 < (bisectAux marg q kf B (9 + 1) 0 B 0).1
    exact bisectAux_succ_pos marg q kf B 9 0 B 0 le_rfl hB

/-- C3 witness: the amended statement at `p = 9/20`, belief-under-study
`q = 3/5`, `kelly_fraction = 1/4`, `bankroll = 1000`, `minBet = 2`,
`maxBet = 50`. -/
theorem sizeBet_zero_at_no_edge_witness :
    (0 : ℚ) < 1000 ∧
    (sizeBet (fun _ => 1 / 2) 50 (9 / 20) (9 / 20) (1 / 4) 1000 2 50 = 0 ∧
     0 < (kellyBisect (fun _ => 1 / 2) (3 / 5) (1 / 4) 1000).1) :=
  ⟨by norm_num,
    sizeBet_zero_at_no_edge (fun _ => 1 / 2) 50 (9 / 20) (3 / 5) (1 / 4) 1000 2 50
      (by norm_num)⟩

/-- `runAux` never lets the bet counter exceed `max_bets` once it starts at
or below it: the loop breaks before analyzing as soon as the counter reaches
the cap, and only increments strictly below it. -/
lemma runAux_bets_le (analyze : Market → TradingDecision)
    (place : TradingDecision → Bool) (max_bets : ℕ) :
    ∀ (ms : List Market) (ds : List TradingDecision) (bets : ℕ),
      bets ≤ max_bets → (runAux analyze place max_bets ms ds bets).2 ≤ max_bets := by
  intro ms
  induction ms with
  | nil => intro ds bets h; exact h
  | cons m ms ih =>
    intro ds bets h
    simp only [runAux]
    split
    · exact h
    · rename_i hnot
      split
      · exact ih _ _ (Nat.succ_le_of_lt (Nat.lt_of_not_le hnot))
      · exact ih _ _ h

/-- C9: in every session produced by `run_on_markets`, the number of bets
placed never exceeds `max_bets`, and once the counter has reached `max_bets`
the loop analyzes no further market — the decision list and counter are
returned unchanged. -/
theorem run_on_markets_respects_max_bets (analyze : Market → TradingDecision)
    (place : TradingDecision → Bool) (markets : List Market) (max_bets : ℕ) :
    (run_on_markets analyze place markets max_bets).bets_placed ≤ max_bets ∧
    ∀ (ms : List Market) (ds : List TradingDecision),
      runAux analyze place max_bets ms ds max_bets = (ds, max_bets) := by
  constructor
  · exact runAux_bets_le analyze place max_bets markets [] 0 (Nat.zero_le _)
  · intro ms ds
    cases ms with
    | nil => rfl
    | cons m ms => simp [runAux]
